import Mathlib

/-! Verification of the probability engine and pool normalization of roll.py,
a roll-and-keep dice calculator.  The Python source is translated into Lean:
Python floats holding probabilities become exact rationals, Python integers
become integers.  Function names follow the source where Lean allows. -/

/-- Chance of getting `n` on a single die (`F` in roll.py):
one tenth for `1 ≤ n ≤ 10`, else `0`. -/
def F (n : ℤ) : ℚ :=
  if n < 1 ∨ 10 < n then 0 else 1/10

/-- Chance of getting `n` on a standard roll (`standard` in roll.py):
dice explode on a 10, so for `n ≥ 10` the chain starts with a 10. -/
def standard (n : ℤ) : ℚ :=
  if n < 10 then F n else F 10 * standard (n - 10)
termination_by n.toNat
decreasing_by omega

/-- Chance of getting `n` on a roll with mastery (`mastery` in roll.py):
dice explode on both 9 and 10. -/
def mastery (n : ℤ) : ℚ :=
  if n < 9 then F n else F 9 * mastery (n - 9) + F 10 * mastery (n - 10)
termination_by n.toNat
decreasing_by all_goals omega

/-- Chance of getting `n` on a roll of kind `D` with emphasis (`emphasis` in
roll.py): if the first die comes up 1 it is rerolled, once.  The distribution
argument comes first here so that `emphasis standard` is the same per-die
distribution that the source builds by fixing the keyword argument `D`. -/
def emphasis (D : ℤ → ℚ) (n : ℤ) : ℚ :=
  if n = 1 then F 1 * F 1 else D n + F 1 * D n

/-- Number of combinations of `n` objects taken `r` at a time (`C` in
roll.py), computed from factorials as an exact rational. -/
def C (n r : ℕ) : ℚ :=
  (n.factorial : ℚ) / ((r.factorial : ℚ) * ((n - r).factorial : ℚ))

/-- `P r k v t D` from roll.py: the chance that a throw rolling `r` dice and
keeping the `k` highest, with per-die distribution `D`, totals exactly `v`
while every individual roll is `t` or less.  The Python loops become sums
over the same integer ranges. -/
def P (r k v t : ℤ) (D : ℤ → ℚ) : ℚ :=
  if r < 1 ∨ k < 1 ∨ v < 1 ∨ t < 1 then D 0
  else
    let acc := P r k v (t - 1) D +
      ∑ n ∈ Finset.Icc (1 : ℤ) k,
        C r.toNat n.toNat * D t ^ n.toNat * P (r - n) (k - n) (v - n * t) (t - 1) D
    if k * t ≠ v then acc
    else
      acc + ∑ n ∈ Finset.Icc k r,
        C r.toNat n.toNat * D t ^ n.toNat *
          (∑ i ∈ Finset.range t.toNat, D (i : ℤ)) ^ (r - n).toNat
termination_by t.toNat
decreasing_by all_goals omega

/-- The roll kinds accepted by the pdf lookup in `throw_v` of roll.py: the
dictionary keys `""`, `"u"`, `"m"`, `"e"`, `"em"`. -/
inductive Mods
  | std
  | u
  | m
  | e
  | em

/-- The per-die distribution that the variant lookup in `throw_v` selects. -/
def pdf : Mods → ℤ → ℚ
  | .std => standard
  | .u => F
  | .m => mastery
  | .e => emphasis standard
  | .em => emphasis mastery

/-- `throw_v` from roll.py: the probability of getting exactly `v` for
roll `r`, keep `k`. -/
def throw_v (r k v : ℤ) (mods : Mods) : ℚ :=
  P r k v v (pdf mods)

/-- `throw_v_or_up` from roll.py: the probability of getting `v` or higher
for roll `r`, keep `k`; the Python `range(1, v)` becomes `Finset.Ico 1 v`. -/
def throw_v_or_up (r k v : ℤ) (mods : Mods) : ℚ :=
  1 - ∑ i ∈ Finset.Ico (1 : ℤ) v, throw_v r k i mods

/-- The while loop of `cap` in roll.py: while more than 11 dice are rolled
and fewer than 10 kept, convert two rolled dice into one kept die. -/
def capLoop (r k : ℤ) : ℤ × ℤ :=
  if 11 < r ∧ k < 10 then capLoop (r - 2) (k + 1) else (r, k)
termination_by (r - 11).toNat
decreasing_by omega

/-- `cap` from roll.py: after the 2-for-1 loop, every rolled or kept die
over 10 becomes a static `+2` bonus. -/
def cap (r k add : ℤ) : ℤ × ℤ × ℤ :=
  let p := capLoop r k
  let add1 := if 10 < p.1 then add + 2 * (p.1 - 10) else add
  let r1 := if 10 < p.1 then 10 else p.1
  let add2 := if 10 < p.2 then add1 + 2 * (p.2 - 10) else add1
  let k1 := if 10 < p.2 then 10 else p.2
  (r1, k1, add2)

/-- Unfolding `P` in the degenerate case: any argument below 1 gives `D 0`. -/
lemma P_base (r k v t : ℤ) (D : ℤ → ℚ) (h : r < 1 ∨ k < 1 ∨ v < 1 ∨ t < 1) :
    P r k v t D = D 0 := by
  rw [P.eq_def, if_pos h]

/-- Unfolding `P` in the recursive case where `k * t ≠ v`: the final loop of
the source is skipped. -/
lemma P_step_ne (r k v t : ℤ) (D : ℤ → ℚ) (h : ¬(r < 1 ∨ k < 1 ∨ v < 1 ∨ t < 1))
    (hne : k * t ≠ v) :
    P r k v t D = P r k v (t - 1) D +
      ∑ n ∈ Finset.Icc (1 : ℤ) k,
        C r.toNat n.toNat * D t ^ n.toNat * P (r - n) (k - n) (v - n * t) (t - 1) D := by
  rw [P.eq_def]
  simp only [if_neg h, if_pos hne]

/-- Unfolding `P` in the recursive case where `k * t = v`: the final loop of
the source contributes the throws with at least `k` rolls equal to `t`. -/
lemma P_step_eq (r k v t : ℤ) (D : ℤ → ℚ) (h : ¬(r < 1 ∨ k < 1 ∨ v < 1 ∨ t < 1))
    (heq : k * t = v) :
    P r k v t D = (P r k v (t - 1) D +
      ∑ n ∈ Finset.Icc (1 : ℤ) k,
        C r.toNat n.toNat * D t ^ n.toNat * P (r - n) (k - n) (v - n * t) (t - 1) D) +
      ∑ n ∈ Finset.Icc k r,
        C r.toNat n.toNat * D t ^ n.toNat *
          (∑ i ∈ Finset.range t.toNat, D (i : ℤ)) ^ (r - n).toNat := by
  rw [P.eq_def]
  simp only [if_neg h, if_neg (not_not_intro heq)]

/-- With one die rolled and kept, a ceiling strictly below the target leaves
no probability mass, provided the per-die distribution vanishes at 0. -/
lemma P_single_lt (D : ℤ → ℚ) (hD : D 0 = 0) (t v : ℤ) (h : t < v) :
    P 1 1 v t D = 0 := by
  by_cases ht : t < 1
  · rw [P_base _ _ _ _ _ (by omega), hD]
  · rw [P_step_ne 1 1 v t D (by omega) (by omega)]
    rw [Finset.Icc_self, Finset.sum_singleton]
    rw [P_single_lt D hD (t - 1) v (by omega)]
    rw [P_base _ _ _ _ _ (by norm_num), hD]
    ring
termination_by t.toNat
decreasing_by omega

/-- With one die rolled and kept, the throw recursion reduces to the per-die
distribution itself. -/
lemma P_single (D : ℤ → ℚ) (hD : D 0 = 0) (v : ℤ) (hv : 1 ≤ v) :
    P 1 1 v v D = D v := by
  rw [P_step_eq 1 1 v v D (by omega) (one_mul v)]
  rw [Finset.Icc_self, Finset.sum_singleton, Finset.sum_singleton]
  rw [P_single_lt D hD (v - 1) v (by omega)]
  rw [P_base _ _ _ _ _ (by norm_num), hD]
  have hC : C (1:ℤ).toNat (1:ℤ).toNat = 1 := by norm_num [C, Nat.factorial]
  rw [hC]
  norm_num

/-- The single-face distribution is nonnegative. -/
lemma F_nonneg (n : ℤ) : 0 ≤ F n := by
  unfold F
  split <;> norm_num

/-- The single-face distribution vanishes at 0. -/
lemma F_zero : F 0 = 0 := by norm_num [F]

/-- The standard distribution vanishes at 0. -/
lemma standard_zero : standard 0 = 0 := by
  rw [standard.eq_def]
  norm_num [F]

/-- The mastery distribution vanishes at 0. -/
lemma mastery_zero : mastery 0 = 0 := by
  rw [mastery.eq_def]
  norm_num [F]

/-- Every per-die distribution of the variant lookup vanishes at 0. -/
lemma pdf_zero (mo : Mods) : pdf mo 0 = 0 := by
  cases mo <;> simp [pdf, emphasis, standard_zero, mastery_zero, F_zero]

/-- On a single rolled and kept die the throw distribution is the per-die
distribution. -/
lemma throw_v_single (v : ℤ) (hv : 1 ≤ v) (mods : Mods) :
    throw_v 1 1 v mods = pdf mods v :=
  P_single (pdf mods) (pdf_zero mods) v hv

/-- The exact throw mass vanishes at nonpositive targets. -/
lemma throw_v_nonpos (r k i : ℤ) (mods : Mods) (hi : i ≤ 0) :
    throw_v r k i mods = 0 := by
  unfold throw_v
  rw [P_base _ _ _ _ _ (by omega), pdf_zero]

/-- Binomial coefficients computed from factorials are nonnegative. -/
lemma C_nonneg (n r : ℕ) : 0 ≤ C n r := by
  unfold C
  positivity

/-- The throw recursion is nonnegative for a nonnegative per-die
distribution; induction on a bound for the ceiling argument. -/
lemma P_nonneg_aux (N : ℕ) :
    ∀ (r k v t : ℤ), t.toNat ≤ N → ∀ (D : ℤ → ℚ), (∀ n, 0 ≤ D n) →
      0 ≤ P r k v t D := by
  induction N with
  | zero =>
      intro r k v t hN D hD
      rw [P_base _ _ _ _ _ (by omega)]
      exact hD 0
  | succ N ih =>
      intro r k v t hN D hD
      by_cases h : r < 1 ∨ k < 1 ∨ v < 1 ∨ t < 1
      · rw [P_base _ _ _ _ _ h]
        exact hD 0
      · have h1 : 0 ≤ P r k v (t - 1) D := ih r k v (t - 1) (by omega) D hD
        have h2 : 0 ≤ ∑ n ∈ Finset.Icc (1 : ℤ) k,
            C r.toNat n.toNat * D t ^ n.toNat * P (r - n) (k - n) (v - n * t) (t - 1) D := by
          refine Finset.sum_nonneg fun n _ => ?_
          exact mul_nonneg (mul_nonneg (C_nonneg _ _) (pow_nonneg (hD t) _))
            (ih (r - n) (k - n) (v - n * t) (t - 1) (by omega) D hD)
        by_cases hv : k * t ≠ v
        · rw [P_step_ne r k v t D h hv]
          exact add_nonneg h1 h2
        · rw [P_step_eq r k v t D h (not_not.mp hv)]
          refine add_nonneg (add_nonneg h1 h2) (Finset.sum_nonneg fun n _ => ?_)
          have hs : (0:ℚ) ≤ ∑ i ∈ Finset.range t.toNat, D (i : ℤ) :=
            Finset.sum_nonneg fun i _ => hD i
          exact mul_nonneg (mul_nonneg (C_nonneg _ _) (pow_nonneg (hD t) _))
            (pow_nonneg hs _)

/-- The throw recursion is nonnegative for a nonnegative per-die
distribution. -/
lemma P_nonneg (r k v t : ℤ) (D : ℤ → ℚ) (hD : ∀ n, 0 ≤ D n) :
    0 ≤ P r k v t D :=
  P_nonneg_aux t.toNat r k v t le_rfl D hD

/-- The standard distribution is nonnegative. -/
lemma standard_nonneg (n : ℤ) : 0 ≤ standard n := by
  rw [standard.eq_def]
  split
  · exact F_nonneg n
  · exact mul_nonneg (F_nonneg 10) (standard_nonneg (n - 10))
termination_by n.toNat
decreasing_by omega

/-- The mastery distribution is nonnegative. -/
lemma mastery_nonneg (n : ℤ) : 0 ≤ mastery n := by
  rw [mastery.eq_def]
  split
  · exact F_nonneg n
  · exact add_nonneg (mul_nonneg (F_nonneg 9) (mastery_nonneg (n - 9)))
      (mul_nonneg (F_nonneg 10) (mastery_nonneg (n - 10)))
termination_by n.toNat
decreasing_by all_goals omega

/-- The emphasis wrapper preserves nonnegativity. -/
lemma emphasis_nonneg (D : ℤ → ℚ) (hD : ∀ n, 0 ≤ D n) (n : ℤ) :
    0 ≤ emphasis D n := by
  unfold emphasis
  split
  · exact mul_nonneg (F_nonneg 1) (F_nonneg 1)
  · exact add_nonneg (hD n) (mul_nonneg (F_nonneg 1) (hD n))

/-- Every per-die distribution of the variant lookup is nonnegative. -/
lemma pdf_nonneg (mo : Mods) : ∀ n, 0 ≤ pdf mo n := by
  cases mo
  · exact standard_nonneg
  · exact F_nonneg
  · exact mastery_nonneg
  · exact emphasis_nonneg standard standard_nonneg
  · exact emphasis_nonneg mastery mastery_nonneg

/-- The exact throw mass is nonnegative. -/
lemma throw_v_nonneg (r k v : ℤ) (mods : Mods) : 0 ≤ throw_v r k v mods :=
  P_nonneg r k v v (pdf mods) (pdf_nonneg mods)

/-- Extending the summation window below 1 does not change the accumulated
throw mass, because the mass vanishes at nonpositive targets. -/
lemma sum_throw_v_Ico (r k : ℤ) (mods : Mods) (a v : ℤ) (ha : a ≤ 1) :
    ∑ i ∈ Finset.Ico a v, throw_v r k i mods =
      ∑ i ∈ Finset.Ico (1 : ℤ) v, throw_v r k i mods := by
  rcases le_or_lt 1 v with h | h
  · rw [← Finset.Ico_union_Ico_eq_Ico ha h,
      Finset.sum_union (Finset.Ico_disjoint_Ico_consecutive a 1 v)]
    have hz : ∑ i ∈ Finset.Ico a 1, throw_v r k i mods = 0 :=
      Finset.sum_eq_zero fun i hi =>
        throw_v_nonpos r k i mods (by have := (Finset.mem_Ico.mp hi).2; omega)
    rw [hz, zero_add]
  · rw [Finset.Ico_eq_empty (by omega : ¬(1 : ℤ) < v), Finset.sum_empty]
    exact Finset.sum_eq_zero fun i hi =>
      throw_v_nonpos r k i mods (by have := (Finset.mem_Ico.mp hi).2; omega)

/-- The survival probability does not increase with the target value. -/
lemma throw_v_or_up_anti (r k v1 v2 : ℤ) (mods : Mods) (h : v1 ≤ v2) :
    throw_v_or_up r k v2 mods ≤ throw_v_or_up r k v1 mods := by
  unfold throw_v_or_up
  have hle : ∑ i ∈ Finset.Ico (1 : ℤ) v1, throw_v r k i mods ≤
      ∑ i ∈ Finset.Ico (1 : ℤ) v2, throw_v r k i mods :=
    Finset.sum_le_sum_of_subset_of_nonneg (Finset.Ico_subset_Ico le_rfl h)
      fun i _ _ => throw_v_nonneg r k i mods
  linarith

/-- The 2-for-1 loop is the identity when at most 11 dice are rolled. -/
lemma capLoop_le (r k : ℤ) (h : ¬ 11 < r) : capLoop r k = (r, k) := by
  rw [capLoop.eq_def, if_neg (by omega : ¬(11 < r ∧ k < 10))]

/-- The 2-for-1 loop preserves `1 ≤ kept ≤ rolled`. -/
lemma capLoop_inv (r k : ℤ) (hk : 1 ≤ k) (hkr : k ≤ r) :
    1 ≤ (capLoop r k).2 ∧ (capLoop r k).2 ≤ (capLoop r k).1 := by
  rw [capLoop.eq_def]
  by_cases h : 11 < r ∧ k < 10
  · rw [if_pos h]
    exact capLoop_inv (r - 2) (k + 1) (by omega) (by omega)
  · rw [if_neg h]
    exact ⟨hk, by omega⟩
termination_by (r - 11).toNat
decreasing_by omega

/-- `cap`, written with its intermediate bindings expanded. -/
lemma cap_def (r k add : ℤ) :
    cap r k add =
      ((if 10 < (capLoop r k).1 then 10 else (capLoop r k).1),
       (if 10 < (capLoop r k).2 then 10 else (capLoop r k).2),
       (if 10 < (capLoop r k).2
          then (if 10 < (capLoop r k).1 then add + 2 * ((capLoop r k).1 - 10) else add) +
            2 * ((capLoop r k).2 - 10)
          else (if 10 < (capLoop r k).1 then add + 2 * ((capLoop r k).1 - 10) else add))) :=
  rfl

/-- The capped pool never exceeds 10 rolled or 10 kept dice. -/
lemma cap_le (r k add : ℤ) : (cap r k add).1 ≤ 10 ∧ (cap r k add).2.1 ≤ 10 := by
  rw [cap_def]
  dsimp only
  constructor <;> split_ifs <;> omega

/-- `cap` leaves a pool of at most 10 rolled and 10 kept dice unchanged. -/
lemma cap_fixed (r k add : ℤ) (hr : r ≤ 10) (hk : k ≤ 10) :
    cap r k add = (r, k, add) := by
  rw [cap_def, capLoop_le r k (by omega)]
  dsimp only
  simp only [if_neg (by omega : ¬(10 : ℤ) < r), if_neg (by omega : ¬(10 : ℤ) < k)]

/-- With `1 ≤ k ≤ r` all capped bounds hold. -/
lemma cap_bounds (r k add : ℤ) (hk : 1 ≤ k) (hkr : k ≤ r) :
    1 ≤ (cap r k add).2.1 ∧ (cap r k add).2.1 ≤ (cap r k add).1 ∧
      (cap r k add).1 ≤ 10 ∧ (cap r k add).2.1 ≤ 10 := by
  obtain ⟨h1, h2⟩ := capLoop_inv r k hk hkr
  rw [cap_def]
  dsimp only
  split_ifs <;> omega

/-- The 2-for-1 loop on 12 rolled, 3 kept runs exactly once. -/
lemma capLoop_12_3 : capLoop 12 3 = (10, 4) := by
  rw [capLoop.eq_def]
  norm_num
  rw [capLoop.eq_def]
  norm_num

/-- Concrete evaluation of `cap` at `(12, 3, 0)`. -/
lemma cap_12_3_0 : cap 12 3 0 = (10, 4, 0) := by
  rw [cap_def, capLoop_12_3]
  norm_num

/-- Claim C1, counterexample: the claimed value `cap 12 3 0 = (10, 4, 2)` is
false; converting two rolled dice into a kept die leaves the bonus at 0. -/
theorem C1_cap_concrete_counterexample : cap 12 3 0 ≠ (10, 4, 2) := by
  rw [cap_12_3_0]
  decide

/-- Claim C1, amended: pool normalization on the concrete input
`(r = 12, k = 3, add = 0)` returns exactly `(10, 4, 0)`. -/
theorem C1_cap_concrete_amended : cap 12 3 0 = (10, 4, 0) := cap_12_3_0

/-- Claim C2, counterexample: without the hypothesis `k ≤ r` the claimed
invariant fails: at `r = 1, k = 2` the kept dice still exceed the rolled
dice after normalization. -/
theorem C2_normalization_counterexample :
    ¬ (∀ r k add : ℤ, 1 ≤ r → 1 ≤ k →
        1 ≤ (cap r k add).2.1 ∧ (cap r k add).2.1 ≤ (cap r k add).1 ∧
        (cap r k add).1 ≤ 10 ∧ (cap r k add).2.1 ≤ 10) := by
  intro hcl
  have h := hcl 1 2 0 (by norm_num) (by norm_num)
  rw [cap_fixed 1 2 0 (by norm_num) (by norm_num)] at h
  dsimp only at h
  omega

/-- Claim C2, amended: for every input with `r ≥ 1`, `k ≥ 1`, `k ≤ r` and
any integer `add`, the normalized pool satisfies `1 ≤ k' ≤ r'`, `r' ≤ 10`
and `k' ≤ 10`. -/
theorem C2_normalized_bounds (r k add : ℤ) (_hr : 1 ≤ r) (hk : 1 ≤ k)
    (hkr : k ≤ r) :
    1 ≤ (cap r k add).2.1 ∧ (cap r k add).2.1 ≤ (cap r k add).1 ∧
      (cap r k add).1 ≤ 10 ∧ (cap r k add).2.1 ≤ 10 :=
  cap_bounds r k add hk hkr

/-- Witness for claim C2 at the concrete pool `12k3`. -/
theorem C2_normalized_bounds_witness :
    (1:ℤ) ≤ 12 ∧ (1:ℤ) ≤ 3 ∧ (3:ℤ) ≤ 12 ∧
      (1 ≤ (cap 12 3 0).2.1 ∧ (cap 12 3 0).2.1 ≤ (cap 12 3 0).1 ∧
        (cap 12 3 0).1 ≤ 10 ∧ (cap 12 3 0).2.1 ≤ 10) :=
  ⟨by norm_num, by norm_num, by norm_num,
    C2_normalized_bounds 12 3 0 (by norm_num) (by norm_num) (by norm_num)⟩

/-- Claim C3: for the standard variant with one die rolled and one kept,
`throw_v 1 1 n` is exactly one tenth for `n` in 1..9, and exactly 0 at
`n = 10`, since a lone 10 always explodes. -/
theorem C3_standard_single_die :
    (∀ n : ℤ, 1 ≤ n → n ≤ 9 → throw_v 1 1 n Mods.std = 1/10) ∧
      throw_v 1 1 10 Mods.std = 0 := by
  constructor
  · intro n h1 h9
    rw [throw_v_single n h1 Mods.std]
    show standard n = 1/10
    rw [standard.eq_def, if_pos (by omega : n < 10)]
    unfold F
    rw [if_neg (by omega)]
  · rw [throw_v_single 10 (by norm_num) Mods.std]
    show standard 10 = 0
    rw [standard.eq_def, if_neg (by norm_num)]
    have h : (10:ℤ) - 10 = 0 := by norm_num
    rw [h, standard_zero, mul_zero]

/-- Witness for claim C3 at `n = 5`. -/
theorem C3_standard_single_die_witness :
    (1:ℤ) ≤ 5 ∧ (5:ℤ) ≤ 9 ∧ throw_v 1 1 5 Mods.std = 1/10 :=
  ⟨by norm_num, by norm_num, C3_standard_single_die.1 5 (by norm_num) (by norm_num)⟩

/-- Claim C4: the survival function equals one minus the exact mass strictly
below `v`; the sum from 1 to `v - 1` coincides with the sum over any window
reaching below 1 because the exact mass vanishes for targets at most 0. -/
theorem C4_survival_pmf_consistency (r k v : ℤ) (mods : Mods)
    (_hk : 1 ≤ k) (_hkr : k ≤ r) :
    (∀ i : ℤ, i ≤ 0 → throw_v r k i mods = 0) ∧
      ∀ a : ℤ, a ≤ 1 →
        throw_v_or_up r k v mods = 1 - ∑ i ∈ Finset.Ico a v, throw_v r k i mods := by
  refine ⟨fun i hi => throw_v_nonpos r k i mods hi, fun a ha => ?_⟩
  unfold throw_v_or_up
  rw [sum_throw_v_Ico r k mods a v ha]

/-- Witness for claim C4 at the pool `2k1`, target 4, window starting at -2. -/
theorem C4_survival_pmf_consistency_witness :
    (1:ℤ) ≤ 1 ∧ (1:ℤ) ≤ 2 ∧ ((-3):ℤ) ≤ 0 ∧ ((-2):ℤ) ≤ 1 ∧
      throw_v 2 1 (-3) Mods.u = 0 ∧
      throw_v_or_up 2 1 4 Mods.u = 1 - ∑ i ∈ Finset.Ico (-2 : ℤ) 4, throw_v 2 1 i Mods.u :=
  ⟨by norm_num, by norm_num, by norm_num, by norm_num,
    (C4_survival_pmf_consistency 2 1 4 Mods.u (by norm_num) (by norm_num)).1 (-3) (by norm_num),
    (C4_survival_pmf_consistency 2 1 4 Mods.u (by norm_num) (by norm_num)).2 (-2) (by norm_num)⟩

/-- Claim C5: for a fixed pool and variant the survival probability is
non-increasing in the target value. -/
theorem C5_survival_antitone (r k v1 v2 : ℤ) (mods : Mods)
    (_hk : 1 ≤ k) (_hkr : k ≤ r) (h : v1 ≤ v2) :
    throw_v_or_up r k v2 mods ≤ throw_v_or_up r k v1 mods :=
  throw_v_or_up_anti r k v1 v2 mods h

/-- Witness for claim C5 at the pool `6k3`, targets 20 and 25. -/
theorem C5_survival_antitone_witness :
    (1:ℤ) ≤ 3 ∧ (3:ℤ) ≤ 6 ∧ (20:ℤ) ≤ 25 ∧
      throw_v_or_up 6 3 25 Mods.std ≤ throw_v_or_up 6 3 20 Mods.std :=
  ⟨by norm_num, by norm_num, by norm_num,
    C5_survival_antitone 6 3 20 25 Mods.std (by norm_num) (by norm_num) (by norm_num)⟩

/-- Claim C6: the recursion `P` returns `D 0` whenever any of `r`, `k`, `v`,
`t` is below 1, and `D 0 = 0` for each of the five per-die distributions, so
such calls yield zero probability mass. -/
theorem C6_degenerate_base :
    (∀ (D : ℤ → ℚ) (r k v t : ℤ), r < 1 ∨ k < 1 ∨ v < 1 ∨ t < 1 →
      P r k v t D = D 0) ∧
      ∀ mo : Mods, pdf mo 0 = 0 :=
  ⟨fun D r k v t h => P_base r k v t D h, pdf_zero⟩

/-- Witness for claim C6: a call with zero rolled dice. -/
theorem C6_degenerate_base_witness :
    P 0 3 5 5 (pdf Mods.std) = pdf Mods.std 0 ∧ pdf Mods.u 0 = 0 :=
  ⟨C6_degenerate_base.1 (pdf Mods.std) 0 3 5 5 (Or.inl (by norm_num)),
    C6_degenerate_base.2 Mods.u⟩

/-- Claim C7: pool normalization is idempotent; applying `cap` to its own
output returns that output unchanged. -/
theorem C7_cap_idempotent (r k add : ℤ) (_hr : 1 ≤ r) (_hk : 1 ≤ k) :
    cap (cap r k add).1 (cap r k add).2.1 (cap r k add).2.2 = cap r k add := by
  obtain ⟨h1, h2⟩ := cap_le r k add
  rw [cap_fixed _ _ _ h1 h2]

/-- Witness for claim C7 at the concrete pool `12k3`. -/
theorem C7_cap_idempotent_witness :
    (1:ℤ) ≤ 12 ∧ (1:ℤ) ≤ 3 ∧
      cap (cap 12 3 0).1 (cap 12 3 0).2.1 (cap 12 3 0).2.2 = cap 12 3 0 :=
  ⟨by norm_num, by norm_num, C7_cap_idempotent 12 3 0 (by norm_num) (by norm_num)⟩

/-- Claim C8: for the unskilled variant with one die rolled and one kept,
the exact throw probability is one tenth for targets in 1..10 and zero for
every other integer target. -/
theorem C8_unskilled_uniform (n : ℤ) :
    throw_v 1 1 n Mods.u = if 1 ≤ n ∧ n ≤ 10 then 1/10 else 0 := by
  by_cases h1 : 1 ≤ n
  · rw [throw_v_single n h1 Mods.u]
    show F n = _
    unfold F
    by_cases h10 : n ≤ 10
    · rw [if_neg (by omega), if_pos ⟨h1, h10⟩]
    · rw [if_pos (by omega), if_neg (by omega)]
  · rw [throw_v_nonpos 1 1 n Mods.u (by omega), if_neg (by omega)]

/-- Claim C9: for any target at most 0 the survival probability is exactly 1;
the sum in `throw_v_or_up` is empty. -/
theorem C9_survival_nonpositive (r k v : ℤ) (mods : Mods)
    (_hk : 1 ≤ k) (_hkr : k ≤ r) (hv : v ≤ 0) :
    throw_v_or_up r k v mods = 1 := by
  unfold throw_v_or_up
  rw [Finset.Ico_eq_empty (by omega : ¬(1 : ℤ) < v), Finset.sum_empty, sub_zero]

/-- Witness for claim C9 at the pool `3k2`, target -5, mastery variant. -/
theorem C9_survival_nonpositive_witness :
    (1:ℤ) ≤ 2 ∧ (2:ℤ) ≤ 3 ∧ ((-5):ℤ) ≤ 0 ∧ throw_v_or_up 3 2 (-5) Mods.m = 1 :=
  ⟨by norm_num, by norm_num, by norm_num,
    C9_survival_nonpositive 3 2 (-5) Mods.m (by norm_num) (by norm_num) (by norm_num)⟩

/-- Claim C10: on a single rolled and kept die the throw distribution
coincides with the per-die distribution the variant lookup selects, for
every variant and every target at least 1. -/
theorem C10_single_die_distribution (mods : Mods) (v : ℤ) (hv : 1 ≤ v) :
    throw_v 1 1 v mods = pdf mods v :=
  throw_v_single v hv mods

/-- Witness for claim C10 at target 7 with emphasis over mastery. -/
theorem C10_single_die_distribution_witness :
    (1:ℤ) ≤ 7 ∧ throw_v 1 1 7 Mods.em = pdf Mods.em 7 :=
  ⟨by norm_num, C10_single_die_distribution Mods.em 7 (by norm_num)⟩
